import Mathlib

/-!
Shallow embedding of the ochat chat server (src/main.rs) for checking its
natural-language specification.

Modelling conventions:
* SQLite integer ids are modelled as `Nat` (they are positive autoincrement
  values in the source).
* `inserted_at` columns hold datetime strings in one fixed STRFTIME
  format; strings in that fixed format compare
  lexicographically exactly as instants compare chronologically, so
  timestamps are modelled as `Nat` and the SQL string comparison as `≤`.
* A table is a `List` of rows held in rowid order (rowid = `id` for these
  schemas); a SQL full-table scan without ORDER BY returns rows in rowid
  order, which is how SQLite executes the queries of this program.
* Fallible operations return `Except String`; an `Except.error` result of a
  transactional operation means the transaction was rolled back, so the
  caller's database state is unchanged.
-/

namespace Ochat

/-- Speaker tag: the `Who` enum of the source, serialized as "Me" / "LlaMA". -/
inductive Who
  | Me
  | Llama
deriving DecidableEq, Repr

/-- Display / sqlx serialization of `Who` (both render `Me` and `LlaMA`). -/
def Who.serialize : Who → String
  | Who.Me => "Me"
  | Who.Llama => "LlaMA"

/-- One parsed line of the generator's NDJSON response (`ChatResponse`). -/
structure ChatResponse where
  response : String
  done : Bool
deriving DecidableEq, Repr

/-- Normalized generation event broadcast on the hub (`OllamaResponseMessage`). -/
inductive OllamaResponseMessage
  | More (response : String)
  | Done
deriving DecidableEq, Repr

/-- Row of the `messages` table. `who` is stored as text in the schema. -/
structure Message where
  id : Nat
  body : String
  who : String
  conversation_id : Nat
  inserted_at : Nat
deriving DecidableEq, Repr

/-- Row of the `conversations` table (`model_id` defaults to 1 in the schema;
the fork and create handlers never bind it explicitly). -/
structure Conversation where
  id : Nat
  name : String
  model_id : Nat
  source_conversation_id : Option Nat
  inserted_at : Nat
deriving DecidableEq, Repr

/-- The persistent store: the two tables relevant to the claims, in rowid
order, together with the next values of their autoincrement id sequences. -/
structure Db where
  conversations : List Conversation
  messages : List Message
  nextConversationId : Nat
  nextMessageId : Nat
deriving DecidableEq, Repr

/-! ## Generation client (`send_chat_message`, lines 66-129) -/

/-- Outcome of reading one line of the streaming response body:
an io read error (`Err(e)` branch, logged and skipped), a line that fails
`serde_json::from_str` (logged and skipped), or a parsed record. -/
inductive LineOutcome
  | readError
  | parseFailure
  | record (cr : ChatResponse)
deriving DecidableEq, Repr

/-- Event produced (if any) for one line, following the match in the
`while let Some(line) = lines.next()` loop of `send_chat_message`:
parsed records map to `Done` when `done` is set and to `More(response)`
otherwise; unparseable lines and read errors produce nothing and do not
stop the loop. -/
def lineEvent : LineOutcome → Option OllamaResponseMessage
  | LineOutcome.record cr =>
      if cr.done then some OllamaResponseMessage.Done
      else some (OllamaResponseMessage.More cr.response)
  | LineOutcome.readError => none
  | LineOutcome.parseFailure => none

/-- The full event sequence the spawned task pushes onto the hub for a given
stream of line outcomes. The source loop never breaks early, so every line
is processed. -/
def ollamaEvents (outcomes : List LineOutcome) : List OllamaResponseMessage :=
  outcomes.filterMap lineEvent

/-- Prompt construction from `send_chat_message` lines 72-79: for each
message, push the speaker string, ": ", the body, and a newline. -/
def buildPrompt (messages : List Message) : String :=
  messages.foldl (fun prompt m => prompt ++ m.who ++ ": " ++ m.body ++ "\n") ""

/-- Observable outcome of one `send_chat_message` invocation together with
the spawned network task it leaves behind. -/
structure GenerationAttempt where
  callerResult : Except String Unit
  prompt : String
  taskPanicked : Bool
  events : List OllamaResponseMessage
deriving Repr

/-- Model of `send_chat_message`: it builds the prompt, spawns the network
task, and returns `Ok(())` unconditionally. The spawned task calls
`.send().await.unwrap()`: when the call fails at initiation (`networkOk`
false) the task panics before producing any event; otherwise it translates
the response lines into events. The caller's result does not depend on the
network outcome. -/
def send_chat_message (networkOk : Bool) (messages : List Message)
    (outcomes : List LineOutcome) : GenerationAttempt :=
  { callerResult := Except.ok ()
    prompt := buildPrompt messages
    taskPanicked := !networkOk
    events := if networkOk then ollamaEvents outcomes else [] }

/-! ## Persistence writer (`spawn_llm_response_update_task`, lines 757-785) -/

/-- The writer task loop: each `More` event appends its text to the stored
body (`update messages set body = body || ?`); `Done` breaks the loop.
The loop also ends when the channel closes (event list exhausted). The
boolean records whether the task terminated because it observed `Done`. -/
def runWriter (body : String) : List OllamaResponseMessage → String × Bool
  | [] => (body, false)
  | OllamaResponseMessage.More r :: rest => runWriter (body ++ r) rest
  | OllamaResponseMessage.Done :: _ => (body, true)

/-! ## Live view feed (`messages_create_sse_handler`, lines 787-815) -/

/-- Error yielded by the broadcast stream when a subscriber lags behind the
bounded backlog. -/
inductive BroadcastStreamRecvError
  | lagged (missed : Nat)
deriving DecidableEq, Repr

/-- Server-sent event emitted to a viewer. -/
inductive SseEvent
  | chatData (data : String)
  | chatDone
deriving DecidableEq, Repr

/-- The `FILLED_BLOCK` character appended to every chunk for the ticker. -/
def FILLED_BLOCK : Char := '█'

/-- The map closure inside `messages_create_sse_handler`: it first calls
`chat_chunk.unwrap()`, which panics when the broadcast stream yields a lag
error; on success it renders `More` as a ChatData event with the ticker
block appended and `Done` as a ChatDone event. A panic is modelled as an
`Except.error`. -/
def sse_chunk_to_event :
    Except BroadcastStreamRecvError OllamaResponseMessage → Except String SseEvent
  | Except.ok (OllamaResponseMessage.More r) =>
      Except.ok (SseEvent.chatData (r.push FILLED_BLOCK))
  | Except.ok OllamaResponseMessage.Done => Except.ok SseEvent.chatDone
  | Except.error _ => Except.error "called Result::unwrap on an Err value"

/-- One SSE subscriber draining its receive handle: events are emitted until
the chunk stream ends or the task panics (a lag error hit the unwrap).
Returns the events that reached the viewer and whether the feed panicked. -/
def sse_stream_run :
    List (Except BroadcastStreamRecvError OllamaResponseMessage) → List SseEvent × Bool
  | [] => ([], false)
  | c :: rest =>
      match sse_chunk_to_event c with
      | Except.ok ev =>
          let p := sse_stream_run rest
          (ev :: p.1, p.2)
      | Except.error _ => ([], true)

/-- Rendering of one successfully received event, for stating what a
non-lagging subscriber sees. -/
def sseRender : OllamaResponseMessage → SseEvent
  | OllamaResponseMessage.More r => SseEvent.chatData (r.push FILLED_BLOCK)
  | OllamaResponseMessage.Done => SseEvent.chatDone

/-! ## Store reads -/

/-- The (timestamp, id) total order on messages from the data model. -/
def msgLE (a b : Message) : Prop :=
  a.inserted_at < b.inserted_at ∨ (a.inserted_at = b.inserted_at ∧ a.id ≤ b.id)

instance : DecidableRel msgLE := fun a b => by
  unfold msgLE
  infer_instance

instance : IsTotal Message msgLE where
  total a b := by
    unfold msgLE
    rcases Nat.lt_trichotomy a.inserted_at b.inserted_at with h | h | h
    · exact Or.inl (Or.inl h)
    · rcases Nat.le_total a.id b.id with h2 | h2
      · exact Or.inl (Or.inr ⟨h, h2⟩)
      · exact Or.inr (Or.inr ⟨h.symm, h2⟩)
    · exact Or.inr (Or.inl h)

instance : IsTrans Message msgLE where
  trans a b c hab hbc := by
    unfold msgLE at hab hbc ⊢
    rcases hab with h1 | ⟨h1, h1i⟩ <;> rcases hbc with h2 | ⟨h2, h2i⟩
    · exact Or.inl (h1.trans h2)
    · exact Or.inl (h2 ▸ h1)
    · exact Or.inl (h1 ▸ h2)
    · exact Or.inr ⟨h1.trans h2, h1i.trans h2i⟩

/-- Scan of the `messages` table restricted to one conversation, in rowid
order. This is the query of `conversations_show` (lines 380-393), which has
no ORDER BY clause: SQLite returns the matching rows of the full scan in
rowid order. -/
def conversationMessages (db : Db) (cid : Nat) : List Message :=
  db.messages.filter (fun m => m.conversation_id == cid)

/-- The message read of `messages_create` (lines 630-646), used to build the
prompt: the same rows with an explicit `order by inserted_at, id`. -/
def messagesForPrompt (db : Db) (cid : Nat) : List Message :=
  (conversationMessages db cid).insertionSort msgLE

/-- Lookup of a single message by id (`fetch_one` of the fork handler,
lines 862-878). `none` models the sqlx RowNotFound error. -/
def lookupMessage (db : Db) (mid : Nat) : Option Message :=
  db.messages.find? (fun m => m.id == mid)

/-! ## Fork engine (`conversations_fork_create`, lines 843-912) -/

/-- Row-by-row effect of the `insert into messages ... select` statement of
the fork handler: each selected row is copied with its `who` and `body`,
the new conversation id, a fresh autoincrement id, and the insertion
timestamp of the copying transaction. -/
def assignCopies (newConvId now : Nat) : Nat → List Message → List Message
  | _, [] => []
  | nextId, m :: rest =>
      { id := nextId, body := m.body, who := m.who,
        conversation_id := newConvId, inserted_at := now } ::
        assignCopies newConvId now (nextId + 1) rest

/-- The fork handler, one transaction: insert a new conversation row named
"a new conversation" whose `source_conversation_id` is the path parameter;
fetch the cut message by id alone (its conversation id is never compared
with the path parameter); copy every message of the cut message's own
conversation whose `inserted_at` and `id` are both at most the cut
message's into the new conversation; commit. A failed fetch aborts and
rolls back the whole transaction, so the conversation insert is undone and
the caller's state is unchanged (hence the error branch precedes the
conversation insert in this committed-state model). -/
def conversations_fork_create (db : Db) (now : Nat)
    (conversation_id message_id : Nat) : Except String (Db × Nat) :=
  match lookupMessage db message_id with
  | none =>
      Except.error "no rows returned by a query that expected to return at least one row"
  | some latest =>
      let newConvId := db.nextConversationId
      let newConv : Conversation :=
        { id := newConvId, name := "a new conversation", model_id := 1,
          source_conversation_id := some conversation_id, inserted_at := now }
      let selected := db.messages.filter (fun m =>
        m.conversation_id == latest.conversation_id &&
        decide (m.inserted_at ≤ latest.inserted_at) &&
        decide (m.id ≤ message_id))
      let copies := assignCopies newConvId now db.nextMessageId selected
      Except.ok
        ({ conversations := db.conversations ++ [newConv],
           messages := db.messages ++ copies,
           nextConversationId := newConvId + 1,
           nextMessageId := db.nextMessageId + copies.length }, newConvId)

/-! ## Conversation deletion (`conversations_delete`, lines 1024-1050) -/

/-- Deleting a conversation: `delete from conversations where id = ?` with
`foreign_keys(true)` and the schema's `on delete cascade` on
`messages.conversation_id` also removes that conversation's messages.
`conversations.source_conversation_id` carries no foreign key constraint at
all in the schema, so rows referencing the deleted conversation are left
untouched. -/
def conversations_delete (db : Db) (cid : Nat) : Db :=
  { db with
    conversations := db.conversations.filter (fun c => c.id != cid),
    messages := db.messages.filter (fun m => m.conversation_id != cid) }

/-! ## Invariant of stores produced by the system -/

/-- Invariant maintained by every insert path of the program: rows sit in
the table in rowid (= id) order, ids grow strictly, insertion timestamps
taken from the monotone wall clock never decrease along that order, and
the autoincrement sequences dominate every existing id. -/
structure Inv (db : Db) : Prop where
  msgs_sorted : db.messages.Pairwise (fun a b => a.id < b.id ∧ a.inserted_at ≤ b.inserted_at)
  msgs_fresh : ∀ m ∈ db.messages, m.id < db.nextMessageId
  convs_fresh : ∀ c ∈ db.conversations, c.id < db.nextConversationId
  msgs_conv : ∀ m ∈ db.messages, m.conversation_id < db.nextConversationId

/-! ## The message-send control flow (`messages_create`, lines 591-754) -/

/-- Observable actions of one `messages_create` execution, in program
order. -/
inductive DbAction
  | beginTxn
  | insertUserMessage
  | readMessages
  | insertPlaceholder
  | readModel
  | commitTxn
  | spawnWriterTask
  | startGeneration
  | appendMore
deriving DecidableEq, Repr

/-- The sequence of actions `messages_create` performs, read off lines
607-690 of the source: one transaction containing the user-message insert,
the ordered read, the placeholder insert and the model read; then the
commit; then the writer task is spawned and the generation started. -/
def messagesCreateTrace : List DbAction :=
  [DbAction.beginTxn, DbAction.insertUserMessage, DbAction.readMessages,
   DbAction.insertPlaceholder, DbAction.readModel, DbAction.commitTxn,
   DbAction.spawnWriterTask, DbAction.startGeneration]

/-- A full execution with `n` body-append updates: every `More` event is
produced by the generation task started as the last step of
`messagesCreateTrace`, so every append comes after that whole trace. -/
def executionTrace (n : Nat) : List DbAction :=
  messagesCreateTrace ++ List.replicate n DbAction.appendMore

/-- Result of the `messages_create` request as seen by the HTTP client:
the handler propagates only `send_chat_message`'s own return value
(`.map_err(...)?`); the network outcome of the spawned task never reaches
it. On success the handler renders the two table rows. -/
def messages_create_result (networkOk : Bool) (messages : List Message)
    (outcomes : List LineOutcome) : Except String Unit :=
  match (send_chat_message networkOk messages outcomes).callerResult with
  | Except.ok _ => Except.ok ()
  | Except.error e => Except.error e

/-! ## Derived definitions used to state the claims -/

/-- Decidable check that an outcome is not a completion record, for stating
the shape of a well-formed stream head. -/
def notDoneRecord : LineOutcome → Bool
  | LineOutcome.record cr => !cr.done
  | _ => true

/-- Texts of the parsed records of a line-outcome list, in order. -/
def recordTexts (outcomes : List LineOutcome) : List String :=
  outcomes.filterMap (fun o => match o with
    | LineOutcome.record cr => some cr.response
    | _ => none)

/-- Number of conversation rows left behind by a fork attempt (0 when the
transaction rolled back). -/
def forkResultConversationCount : Except String (Db × Nat) → Nat
  | Except.ok p => p.1.conversations.length
  | Except.error _ => 0

/-- The rows the fork's insert-select statement reads, stated over the
source conversation's scan: the messages of the cut message's conversation
whose timestamp and id both rank at or before the cut message's. -/
def forkCut (db : Db) (m : Message) : List Message :=
  (conversationMessages db m.conversation_id).filter
    (fun x => decide (x.inserted_at ≤ m.inserted_at) && decide (x.id ≤ m.id))

/-- Full correctness statement for forking conversation `m.conversation_id`
at its member message `m`: the fork commits, the new conversation id is
fresh, the new row records the source, the copied messages carry fresh ids,
arrive already in (timestamp, id) order, and their (speaker, body) sequence
equals that of the prefix of the source's ordered sequence ending at `m`. -/
def ForkSpec (db : Db) (now : Nat) (m : Message) : Prop :=
  ∃ db2, conversations_fork_create db now m.conversation_id m.id =
      Except.ok (db2, db.nextConversationId) ∧
    (∀ c ∈ db.conversations, c.id ≠ db.nextConversationId) ∧
    ({ id := db.nextConversationId, name := "a new conversation", model_id := 1,
       source_conversation_id := some m.conversation_id, inserted_at := now } : Conversation)
      ∈ db2.conversations ∧
    (∀ x ∈ conversationMessages db2 db.nextConversationId, ∀ y ∈ db.messages, y.id < x.id) ∧
    (conversationMessages db2 db.nextConversationId).Sorted msgLE ∧
    (∃ rest, conversationMessages db m.conversation_id = forkCut db m ++ rest) ∧
    (forkCut db m).getLast? = some m ∧
    (conversationMessages db2 db.nextConversationId).map (fun x => (x.who, x.body)) =
      (forkCut db m).map (fun x => (x.who, x.body))

/-! ## Concrete stores for witnesses and counterexamples -/

/-- A small store satisfying the invariant: conversation 1 with a two-turn
exchange, and conversation 2, forked from 1, with one message. -/
def exDb : Db :=
  { conversations :=
      [{ id := 1, name := "a new conversation", model_id := 1,
         source_conversation_id := none, inserted_at := 0 },
       { id := 2, name := "a new conversation", model_id := 1,
         source_conversation_id := some 1, inserted_at := 5 }],
    messages :=
      [{ id := 1, body := "hello", who := "Me", conversation_id := 1, inserted_at := 1 },
       { id := 2, body := "hi there", who := "LlaMA", conversation_id := 1, inserted_at := 2 },
       { id := 3, body := "child", who := "Me", conversation_id := 2, inserted_at := 6 }],
    nextConversationId := 3,
    nextMessageId := 4 }

/-- A store where message 10 belongs to conversation 2, used to exercise a
fork request naming conversation 1 as the source of cut message 10. -/
def exDb3 : Db :=
  { conversations :=
      [{ id := 1, name := "a new conversation", model_id := 1,
         source_conversation_id := none, inserted_at := 0 },
       { id := 2, name := "a new conversation", model_id := 1,
         source_conversation_id := none, inserted_at := 0 }],
    messages :=
      [{ id := 10, body := "b", who := "Me", conversation_id := 2, inserted_at := 3 }],
    nextConversationId := 3,
    nextMessageId := 11 }

/-! ## Helper lemmas -/

theorem string_foldl_append (l : List String) : ∀ a b : String,
    l.foldl (· ++ ·) (a ++ b) = a ++ l.foldl (· ++ ·) b := by
  induction l with
  | nil => intro a b; rfl
  | cons x xs ih =>
    intro a b
    show xs.foldl (· ++ ·) (a ++ b ++ x) = a ++ xs.foldl (· ++ ·) (b ++ x)
    rw [String.append_assoc, ih]

theorem string_join_cons (x : String) (xs : List String) :
    String.join (x :: xs) = x ++ String.join xs :=
  calc xs.foldl (· ++ ·) ("" ++ x) = xs.foldl (· ++ ·) (x ++ "") := by
        rw [String.empty_append, String.append_empty]
    _ = x ++ xs.foldl (· ++ ·) "" := string_foldl_append xs x ""

theorem buildPrompt_go (l : List Message) : ∀ init : String,
    l.foldl (fun p m => p ++ m.who ++ ": " ++ m.body ++ "\n") init =
      init ++ String.join (l.map (fun m => m.who ++ ": " ++ m.body ++ "\n")) := by
  induction l with
  | nil => intro init; exact (String.append_empty init).symm
  | cons m ms ih =>
    intro init
    show ms.foldl _ (init ++ m.who ++ ": " ++ m.body ++ "\n") = _
    rw [ih, List.map_cons, string_join_cons]
    simp only [String.append_assoc]

theorem runWriter_append_more (ts : List String) :
    ∀ (body : String) (l : List OllamaResponseMessage),
      runWriter body (ts.map OllamaResponseMessage.More ++ l) =
        runWriter (ts.foldl (· ++ ·) body) l := by
  induction ts with
  | nil => intro body l; rfl
  | cons t rest ih =>
    intro body l
    show runWriter (body ++ t) (rest.map OllamaResponseMessage.More ++ l) = _
    exact ih (body ++ t) l

theorem find_id_of_pairwise (l : List Message) (m : Message)
    (hl : l.Pairwise (fun a b => a.id < b.id)) (hm : m ∈ l) :
    l.find? (fun x => x.id == m.id) = some m := by
  induction l with
  | nil => cases hm
  | cons a t ih =>
    rcases List.mem_cons.mp hm with rfl | hmt
    · rw [List.find?_cons_of_pos _ (by simp)]
    · have hlt : a.id < m.id := (List.pairwise_cons.mp hl).1 m hmt
      rw [List.find?_cons_of_neg _ (by simp; omega)]
      exact ih (List.pairwise_cons.mp hl).2 hmt

theorem filter_eq_takeWhile_of_pairwise {α : Type} (p : α → Bool) (l : List α)
    (h : l.Pairwise (fun a b => p b = true → p a = true)) :
    l.filter p = l.takeWhile p := by
  induction l with
  | nil => rfl
  | cons a t ih =>
    rcases List.pairwise_cons.mp h with ⟨ha, ht⟩
    by_cases hpa : p a = true
    · rw [List.filter_cons_of_pos hpa, List.takeWhile_cons_of_pos hpa, ih ht]
    · have hnil : t.filter p = [] := by
        refine List.filter_eq_nil_iff.mpr (fun b hb hpb => hpa (ha b hb hpb))
      rw [List.filter_cons_of_neg (by simpa using hpa),
        List.takeWhile_cons_of_neg (by simpa using hpa), hnil]

theorem getLast_cons_ne {α : Type} (a : α) (l : List α) (h : l ≠ []) :
    (a :: l).getLast? = l.getLast? := by
  cases l with
  | nil => cases h rfl
  | cons b t => simp [List.getLast?]

theorem getLast_filter_of_pairwise (l : List Message) (m : Message) (p : Message → Bool)
    (hl : l.Pairwise (fun a b => a.id < b.id)) (hm : m ∈ l) (hpm : p m = true)
    (hbound : ∀ y ∈ l, p y = true → y.id ≤ m.id) :
    (l.filter p).getLast? = some m := by
  induction l with
  | nil => cases hm
  | cons a t ih =>
    rcases List.pairwise_cons.mp hl with ⟨ha, ht⟩
    rcases List.mem_cons.mp hm with rfl | hmt
    · have hnil : t.filter p = [] := by
        refine List.filter_eq_nil_iff.mpr (fun b hb hpb => ?_)
        have h1 : m.id < b.id := ha b hb
        have h2 : b.id ≤ m.id := hbound b (List.mem_cons_of_mem _ hb) hpb
        omega
      rw [List.filter_cons_of_pos hpm, hnil]
      rfl
    · have ihr := ih ht hmt (fun y hy hpy => hbound y (List.mem_cons_of_mem _ hy) hpy)
      by_cases hpa : p a = true
      · have hne : t.filter p ≠ [] := by
          intro hnil
          have hmem : m ∈ t.filter p := List.mem_filter.mpr ⟨hmt, hpm⟩
          rw [hnil] at hmem
          cases hmem
        rw [List.filter_cons_of_pos hpa, getLast_cons_ne _ _ hne]
        exact ihr
      · rw [List.filter_cons_of_neg (by simpa using hpa)]
        exact ihr

theorem assignCopies_mem (newConvId now : Nat) :
    ∀ (start : Nat) (l : List Message) (x : Message),
      x ∈ assignCopies newConvId now start l →
        x.conversation_id = newConvId ∧ x.inserted_at = now ∧ start ≤ x.id := by
  intro start l
  induction l generalizing start with
  | nil => intro x hx; cases hx
  | cons a t ih =>
    intro x hx
    rcases List.mem_cons.mp hx with rfl | hxt
    · exact ⟨rfl, rfl, Nat.le_refl _⟩
    · rcases ih (start + 1) x hxt with ⟨h1, h2, h3⟩
      exact ⟨h1, h2, by omega⟩

theorem assignCopies_map_who_body (newConvId now : Nat) :
    ∀ (start : Nat) (l : List Message),
      (assignCopies newConvId now start l).map (fun x => (x.who, x.body)) =
        l.map (fun x => (x.who, x.body)) := by
  intro start l
  induction l generalizing start with
  | nil => rfl
  | cons a t ih =>
    show (a.who, a.body) :: _ = (a.who, a.body) :: _
    rw [ih (start + 1)]

theorem assignCopies_sortedLE (newConvId now : Nat) :
    ∀ (start : Nat) (l : List Message),
      (assignCopies newConvId now start l).Sorted msgLE := by
  intro start l
  induction l generalizing start with
  | nil => exact List.sorted_nil
  | cons a t ih =>
    refine List.pairwise_cons.mpr ⟨?_, ih (start + 1)⟩
    intro y hy
    rcases assignCopies_mem newConvId now (start + 1) t y hy with ⟨_, hts, hid⟩
    refine Or.inr ⟨hts.symm, ?_⟩
    show start ≤ y.id
    omega

theorem bool_and_rotate (a b c : Bool) : ((a && b) && c) = ((b && c) && a) := by
  cases a <;> cases b <;> cases c <;> rfl

theorem conversationMessages_mk (cs : List Conversation) (ms : List Message)
    (nc nm cid : Nat) :
    conversationMessages
      { conversations := cs, messages := ms,
        nextConversationId := nc, nextMessageId := nm } cid =
      ms.filter (fun m => m.conversation_id == cid) := rfl

/-! ## Claim theorems -/

/-- C2: delivering N `More` events with texts t1..tN to the persistence
writer of a placeholder reply (empty initial body), followed by `Done`,
persists exactly the concatenation t1‖…‖tN — each `More` appends to the
existing body — and on `Done` the writer task terminates, ignoring
anything after it. -/
theorem writer_persists_concatenation (ts : List String)
    (junk : List OllamaResponseMessage) :
    runWriter "" (ts.map OllamaResponseMessage.More ++
      OllamaResponseMessage.Done :: junk) = (String.join ts, true) := by
  rw [runWriter_append_more]
  rfl

/-- C9: the prompt built from an ordered message list m1..mk is exactly the
concatenation, in order, of speaker, ": ", body and a newline for each
message, with no suffix after the transcript. -/
theorem prompt_is_transcript (messages : List Message) :
    buildPrompt messages =
      String.join (messages.map (fun m => m.who ++ ": " ++ m.body ++ "\n")) := by
  unfold buildPrompt
  rw [buildPrompt_go]
  exact String.empty_append _

/-- C5 counterexample: with the network call failing at initiation
(networkOk = false), the request that triggered the generation still
receives a success result — the failure is a panic of the spawned task and
is never surfaced to the caller, contradicting the claim that the caller
receives an error result. -/
theorem network_failure_not_surfaced :
    messages_create_result false [] [] = Except.ok () ∧
    (send_chat_message false [] []).taskPanicked = true :=
  ⟨rfl, rfl⟩

/-- C5 as amended: a network failure at call initiation is fatal to that
generation attempt — the spawned task panics at the unwrap and produces no
events — but the triggering request still receives a success result;
`send_chat_message` returns Ok unconditionally, so no error reaches the
caller. -/
theorem request_succeeds_despite_network_failure (networkOk : Bool)
    (messages : List Message) (outcomes : List LineOutcome) :
    messages_create_result networkOk messages outcomes = Except.ok () ∧
    (send_chat_message false messages outcomes).events = [] ∧
    (send_chat_message false messages outcomes).taskPanicked = true :=
  ⟨rfl, rfl, rfl⟩

/-- C6 counterexample: a subscriber whose broadcast stream yields a lag
error panics at the unwrap inside the SSE map closure — the feed crashes
on lag instead of degrading to silence; events queued after the lag are
lost with it. -/
theorem sse_feed_panics_on_lag :
    sse_stream_run [Except.error (BroadcastStreamRecvError.lagged 3)] = ([], true) ∧
    sse_stream_run [Except.ok (OllamaResponseMessage.More "a"),
        Except.error (BroadcastStreamRecvError.lagged 2),
        Except.ok OllamaResponseMessage.Done] =
      ([SseEvent.chatData ("a".push FILLED_BLOCK)], true) :=
  ⟨rfl, rfl⟩

/-- C6 as amended: a subscriber that never lags receives every event of its
feed without crashing, but when the hub's bounded backlog is exceeded and
the stream yields a lag error, the feed task panics at the unwrap,
terminating that subscription and dropping all later events. -/
theorem sse_feed_lag_panics (good : List OllamaResponseMessage)
    (e : BroadcastStreamRecvError)
    (rest : List (Except BroadcastStreamRecvError OllamaResponseMessage)) :
    sse_stream_run (good.map Except.ok) = (good.map sseRender, false) ∧
    sse_stream_run (good.map Except.ok ++ Except.error e :: rest) =
      (good.map sseRender, true) := by
  constructor
  · induction good with
    | nil => rfl
    | cons g gs ih =>
      cases g <;> simp [sse_stream_run, sse_chunk_to_event, sseRender, ih]
  · induction good with
    | nil => rfl
    | cons g gs ih =>
      cases g <;> simp [sse_stream_run, sse_chunk_to_event, sseRender, ih]

/-- C7 counterexample: in `messages_create` the user-message insert and the
placeholder insert share one transaction, whose single commit comes after
the placeholder is created — so the user message is not durably committed
before the placeholder reply row is created. -/
theorem commit_not_before_placeholder :
    ¬ messagesCreateTrace.indexOf DbAction.commitTxn <
        messagesCreateTrace.indexOf DbAction.insertPlaceholder := by
  decide

/-- C7 as amended: the user-message insert precedes the placeholder insert
inside one transaction; both become durable together at that transaction's
commit, and the commit precedes the writer spawn, the generation start,
and every body-append update, so no append ever targets a row that is not
yet durably committed. -/
theorem messages_create_ordering (n : Nat) :
    messagesCreateTrace.indexOf DbAction.insertUserMessage <
      messagesCreateTrace.indexOf DbAction.insertPlaceholder ∧
    messagesCreateTrace.indexOf DbAction.insertPlaceholder <
      messagesCreateTrace.indexOf DbAction.commitTxn ∧
    messagesCreateTrace.indexOf DbAction.commitTxn <
      messagesCreateTrace.indexOf DbAction.spawnWriterTask ∧
    messagesCreateTrace.indexOf DbAction.spawnWriterTask <
      messagesCreateTrace.indexOf DbAction.startGeneration ∧
    ∀ i, (executionTrace n).get? i = some DbAction.appendMore →
      messagesCreateTrace.indexOf DbAction.commitTxn < i := by
  refine ⟨by decide, by decide, by decide, by decide, ?_⟩
  intro i hi
  have h8 : 8 ≤ i := by
    by_contra hlt
    push_neg at hlt
    interval_cases i <;> simp [executionTrace, messagesCreateTrace] at hi
  have h5 : messagesCreateTrace.indexOf DbAction.commitTxn = 5 := by decide
  omega

/-- C7 witness: in an execution with one append, the append at position 8
indeed comes after the commit. -/
theorem messages_create_ordering_witness :
    messagesCreateTrace.indexOf DbAction.commitTxn < 8 :=
  (messages_create_ordering 1).2.2.2.2 8 (by decide)

/-- C4 counterexample: the reading loop of `send_chat_message` never breaks
after a completion record, so a stream whose completion record is followed
by another parseable record produces an event after `Done` — `Done` is not
terminal for arbitrary line sequences, contradicting the claim. -/
theorem generation_client_done_not_terminal :
    ollamaEvents [LineOutcome.record ⟨"", true⟩, LineOutcome.record ⟨"x", false⟩] =
      [OllamaResponseMessage.Done, OllamaResponseMessage.More "x"] ∧
    OllamaResponseMessage.Done ∈
      (ollamaEvents [LineOutcome.record ⟨"", true⟩,
        LineOutcome.record ⟨"x", false⟩]).dropLast := by
  constructor
  · rfl
  · decide

/-- C4 as amended: lines that fail to parse (and read errors) produce no
event and do not abort processing of later lines; a record with completion
flag false produces `More(text)`; a record with completion flag true
produces one `Done` event — and when that completion record is the last
line of the stream (the generator's contract), `Done` is the final event,
with nothing after it. -/
theorem generation_client_events (pre : List LineOutcome) (cr : ChatResponse)
    (hpre : ∀ o ∈ pre, notDoneRecord o = true) (hdone : cr.done = true) :
    ollamaEvents (pre ++ [LineOutcome.record cr]) =
      (recordTexts pre).map OllamaResponseMessage.More ++
        [OllamaResponseMessage.Done] := by
  unfold ollamaEvents
  rw [List.filterMap_append]
  have htail : [LineOutcome.record cr].filterMap lineEvent =
      [OllamaResponseMessage.Done] := by
    simp [lineEvent, hdone]
  rw [htail]
  congr 1
  induction pre with
  | nil => rfl
  | cons o os ih =>
    have hos : ∀ x ∈ os, notDoneRecord x = true :=
      fun x hx => hpre x (List.mem_cons_of_mem _ hx)
    have hihs := ih hos
    cases o with
    | record r =>
      have hr : r.done = false := by
        have := hpre (LineOutcome.record r) (List.mem_cons_self _ _)
        simpa [notDoneRecord] using this
      simp [recordTexts, lineEvent, hr, List.filterMap_cons] at hihs ⊢
      exact hihs
    | readError =>
      simpa [recordTexts, lineEvent, List.filterMap_cons] using hihs
    | parseFailure =>
      simpa [recordTexts, lineEvent, List.filterMap_cons] using hihs

/-- C4 witness: a malformed line is skipped, a false-flag record becomes
`More "hi"`, and the final completion record closes the stream with
`Done`. -/
theorem generation_client_events_witness :
    ollamaEvents [LineOutcome.parseFailure, LineOutcome.record ⟨"hi", false⟩,
        LineOutcome.record ⟨"", true⟩] =
      [OllamaResponseMessage.More "hi", OllamaResponseMessage.Done] :=
  generation_client_events
    [LineOutcome.parseFailure, LineOutcome.record ⟨"hi", false⟩]
    ⟨"", true⟩ (by decide) rfl

/-- C10: deleting a conversation removes exactly its own messages (the
schema's cascade), leaves every other conversation's messages — including
fork children's — unchanged, keeps every other conversation row (so fork
children survive with their source pointer intact), and leaves no row with
the deleted id, so a surviving source pointer to it is orphaned. -/
theorem conversation_delete_cascades (db : Db) (cid : Nat) :
    conversationMessages (conversations_delete db cid) cid = [] ∧
    (∀ c2, c2 ≠ cid →
      conversationMessages (conversations_delete db cid) c2 =
        conversationMessages db c2) ∧
    (∀ conv ∈ db.conversations, conv.id ≠ cid →
      conv ∈ (conversations_delete db cid).conversations) ∧
    (∀ conv ∈ (conversations_delete db cid).conversations, conv.id ≠ cid) := by
  refine ⟨?_, ?_, ?_, ?_⟩
  · unfold conversationMessages conversations_delete
    rw [List.filter_filter]
    refine List.filter_eq_nil_iff.mpr (fun m _ => ?_)
    by_cases h : m.conversation_id = cid <;> simp [h]
  · intro c2 hc2
    unfold conversationMessages conversations_delete
    rw [List.filter_filter]
    refine List.filter_congr (fun m _ => ?_)
    by_cases h : m.conversation_id = c2
    · simp [h, hc2]
    · simp [h]
  · intro conv hconv hne
    exact List.mem_filter.mpr ⟨hconv, by simpa using hne⟩
  · intro conv hconv
    have h2 := (List.mem_filter.mp hconv).2
    simpa using h2

/-- C10 witness: deleting conversation 1 of the example store leaves the
messages of its fork child (conversation 2) unchanged. -/
theorem conversation_delete_witness :
    conversationMessages (conversations_delete exDb 1) 2 =
      conversationMessages exDb 2 :=
  (conversation_delete_cascades exDb 1).2.1 2 (by decide)

/-- C8: under the store invariant, the display read of `conversations_show`
(a plain scan, returned in rowid order) is already sorted by the
(timestamp, id) total order, and the prompt-construction read of
`messages_create` (ORDER BY inserted_at, id) returns exactly the same
sequence. Both reads are pure functions of the store, so repeated reads
with no intervening inserts return the same sequence. -/
theorem conversation_reads_sorted (db : Db) (cid : Nat) (hInv : Inv db) :
    (conversationMessages db cid).Sorted msgLE ∧
    messagesForPrompt db cid = conversationMessages db cid := by
  have hp : (conversationMessages db cid).Pairwise
      (fun a b => a.id < b.id ∧ a.inserted_at ≤ b.inserted_at) :=
    hInv.msgs_sorted.sublist (List.filter_sublist _)
  have hs : (conversationMessages db cid).Sorted msgLE := by
    refine hp.imp (fun hab => ?_)
    rcases Nat.lt_or_eq_of_le hab.2 with h | h
    · exact Or.inl h
    · exact Or.inr ⟨h, Nat.le_of_lt hab.1⟩
  exact ⟨hs, hs.insertionSort_eq⟩

/-- C8 witness: both reads of conversation 1 of the example store agree and
are sorted. -/
theorem conversation_reads_sorted_witness :
    (conversationMessages exDb 1).Sorted msgLE ∧
    messagesForPrompt exDb 1 = conversationMessages exDb 1 :=
  conversation_reads_sorted exDb 1 ⟨by decide, by decide, by decide, by decide⟩

/-- C3 counterexample: requesting a fork of conversation 1 at cut message
10, which belongs to conversation 2, does not report an error — the
transaction commits and a third conversation row is created (with a source
pointer to conversation 1 and the prefix copied from conversation 2),
contradicting the claimed membership check and rollback. -/
theorem fork_no_membership_check :
    (conversations_fork_create exDb3 5 1 10).isOk = true ∧
    forkResultConversationCount (conversations_fork_create exDb3 5 1 10) = 3 := by
  constructor <;> rfl

/-- C3 as amended: the fork handler never compares the cut message's
conversation with the requested source conversation; its transaction fails
— rolling back, so no conversation row is created — exactly when the cut
message does not exist at all. When the cut message exists anywhere, the
fork commits. -/
theorem fork_error_iff_missing_message (db : Db) (now cid mid : Nat) :
    ((conversations_fork_create db now cid mid).isOk = false ↔
      lookupMessage db mid = none) ∧
    (lookupMessage db mid = none →
      conversations_fork_create db now cid mid =
        Except.error
          "no rows returned by a query that expected to return at least one row") := by
  unfold conversations_fork_create
  cases h : lookupMessage db mid <;> simp [Except.isOk, Except.toBool]

/-- C3 witness: forking at a message id that does not exist reports the
RowNotFound request error, so the transaction is rolled back and the
caller's state is unchanged. -/
theorem fork_error_witness :
    conversations_fork_create exDb3 5 1 99 =
      Except.error
        "no rows returned by a query that expected to return at least one row" :=
  (fork_error_iff_missing_message exDb3 5 1 99).2 (by decide)

/-- C1: under the store invariant, forking conversation C at any of its
messages m commits a new conversation with a fresh id and a source
reference to C whose message sequence — already in (timestamp, id) order —
carries fresh message ids and repeats exactly the speakers and bodies of
the prefix of C's (timestamp, id)-ordered sequence ending at m, in the
same relative order. -/
theorem fork_copies_ordered_prefix (db : Db) (now : Nat) (m : Message)
    (hInv : Inv db) (hm : m ∈ db.messages) : ForkSpec db now m := by
  have hid : db.messages.Pairwise (fun a b => a.id < b.id) :=
    hInv.msgs_sorted.imp (fun hab => hab.1)
  have hlook : lookupMessage db m.id = some m :=
    find_id_of_pairwise db.messages m hid hm
  -- the rows the insert-select reads are exactly the cut of the source scan
  have hsel : db.messages.filter (fun x =>
      x.conversation_id == m.conversation_id &&
      decide (x.inserted_at ≤ m.inserted_at) && decide (x.id ≤ m.id)) =
      forkCut db m := by
    unfold forkCut conversationMessages
    rw [List.filter_filter]
    exact List.filter_congr (fun x _ => bool_and_rotate _ _ _)
  have hfork : conversations_fork_create db now m.conversation_id m.id =
      Except.ok
        ({ conversations := db.conversations ++
             [{ id := db.nextConversationId, name := "a new conversation",
                model_id := 1, source_conversation_id := some m.conversation_id,
                inserted_at := now }],
           messages := db.messages ++
             assignCopies db.nextConversationId now db.nextMessageId (forkCut db m),
           nextConversationId := db.nextConversationId + 1,
           nextMessageId := db.nextMessageId +
             (assignCopies db.nextConversationId now db.nextMessageId
               (forkCut db m)).length },
         db.nextConversationId) := by
    unfold conversations_fork_create
    rw [hlook]
    show Except.ok _ = _
    rw [hsel]
  have hold : db.messages.filter
      (fun x => x.conversation_id == db.nextConversationId) = [] :=
    List.filter_eq_nil_iff.mpr (fun x hx => by
      have hx2 := hInv.msgs_conv x hx
      simp only [beq_iff_eq]
      omega)
  have hcopies : (assignCopies db.nextConversationId now db.nextMessageId
      (forkCut db m)).filter
      (fun x => x.conversation_id == db.nextConversationId) =
      assignCopies db.nextConversationId now db.nextMessageId (forkCut db m) :=
    List.filter_eq_self.mpr (fun x hx => by
      rcases assignCopies_mem _ _ _ _ x hx with ⟨hc, _, _⟩
      simp [hc])
  have hpcs : (conversationMessages db m.conversation_id).Pairwise
      (fun a b =>
        (decide (b.inserted_at ≤ m.inserted_at) && decide (b.id ≤ m.id)) = true →
        (decide (a.inserted_at ≤ m.inserted_at) && decide (a.id ≤ m.id)) = true) := by
    refine (hInv.msgs_sorted.sublist (List.filter_sublist _)).imp (fun hab hb => ?_)
    simp only [Bool.and_eq_true, decide_eq_true_eq] at hb ⊢
    omega
  refine ⟨_, hfork, ?_, ?_, ?_, ?_, ?_, ?_, ?_⟩
  · intro c hc
    have hc2 := hInv.convs_fresh c hc
    omega
  · simp
  · intro x hx y hy
    rw [conversationMessages_mk, List.filter_append, hold, hcopies,
      List.nil_append] at hx
    rcases assignCopies_mem _ _ _ _ x hx with ⟨_, _, hge⟩
    have hy2 := hInv.msgs_fresh y hy
    omega
  · rw [conversationMessages_mk, List.filter_append, hold, hcopies,
      List.nil_append]
    exact assignCopies_sortedLE _ _ _ _
  · refine ⟨(conversationMessages db m.conversation_id).dropWhile
      (fun x => decide (x.inserted_at ≤ m.inserted_at) && decide (x.id ≤ m.id)), ?_⟩
    have hcut_tw : forkCut db m = (conversationMessages db m.conversation_id).takeWhile
        (fun x => decide (x.inserted_at ≤ m.inserted_at) && decide (x.id ≤ m.id)) :=
      filter_eq_takeWhile_of_pairwise _ _ hpcs
    rw [hcut_tw]
    exact (List.takeWhile_append_dropWhile _ _).symm
  · refine getLast_filter_of_pairwise (conversationMessages db m.conversation_id) m _
      (hid.sublist (List.filter_sublist _)) ?_ (by simp) ?_
    · exact List.mem_filter.mpr ⟨hm, by simp⟩
    · intro y _ hpy
      simp only [Bool.and_eq_true, decide_eq_true_eq] at hpy
      exact hpy.2
  · rw [conversationMessages_mk, List.filter_append, hold, hcopies,
      List.nil_append]
    exact assignCopies_map_who_body _ _ _ _

/-- C1 witness: forking conversation 1 of the example store at its second
message satisfies the full fork specification. -/
theorem fork_copies_ordered_prefix_witness :
    ForkSpec exDb 10
      { id := 2, body := "hi there", who := "LlaMA",
        conversation_id := 1, inserted_at := 2 } :=
  fork_copies_ordered_prefix exDb 10 _
    ⟨by decide, by decide, by decide, by decide⟩ (by decide)

end Ochat
